import Mathlib

/-!
Verification development for the image-analysis core of the `dive` repository
(package `image`, files `docker_image.go` and the layer accessor file).

Strings are embedded as lists of characters.  All `uint64` arithmetic of the
source is carried out on `Nat` with an explicit reduction modulo `2 ^ 64` at
every addition, exactly where the Go code adds `uint64` values.  A Go function
that can panic (nil-pointer dereference, index out of range, `logrus.Panic`)
is embedded as an `Option`-valued function, `none` marking the panic; a Go
function that returns an `error` is embedded with `Except`.
-/

/-- Strings of the source are embedded as lists of characters. -/
abbrev Str := List Char

/-- Modulus of Go `uint64` arithmetic. -/
def U64 : Nat := 2 ^ 64

/-- Tar header type flags distinguished by the source (`tar.TypeReg`,
`tar.TypeDir`, `tar.TypeSymlink`, `tar.TypeXHeader`, `tar.TypeXGlobalHeader`,
and a catch-all for the remaining flags). -/
inductive TypeFlag where
  | Reg : TypeFlag
  | Dir : TypeFlag
  | Sym : TypeFlag
  | XHeader : TypeFlag
  | XGlobalHeader : TypeFlag
  | OtherFlag : TypeFlag
deriving DecidableEq

/-- One record of a layer sub-archive: its path (`header.Name`), its declared
type flag (`header.Typeflag`) and its declared size (`header.Size`). -/
structure TarHeader where
  name : Str
  typeflag : TypeFlag
  size : Nat
deriving DecidableEq

/-- Modelled from the spec: the `filetree` package is not under `src/`.
Classification of a file record (spec section 3, `FileRecord.kind`). -/
inductive FileKind where
  | Regular : FileKind
  | Directory : FileKind
  | SymbolicLink : FileKind
  | Whiteout : FileKind
  | Other : FileKind
deriving DecidableEq

/-- Modelled from the spec: the `filetree` package is not under `src/`.
`filetree.FileInfo` — path, declared size and classification of one record.
Only the fields the analysed code reads (`Path`, `Size`) and the kind used by
the efficiency accounting are modelled. -/
structure FileInfo where
  path : Str
  size : Nat
  kind : FileKind
deriving DecidableEq

/-- Final path segment: the part of the path after the last slash. -/
def lastSegment (p : Str) : Str :=
  p.foldl (fun acc c => if c = '/' then [] else acc ++ [c]) []

/-- Modelled from the spec: a path whose final segment begins with the
deletion-marker ".wh." is a whiteout (spec section 3). -/
def isWhiteoutPath (p : Str) : Bool :=
  (".wh.".toList).isPrefixOf (lastSegment p)

/-- Modelled from the spec: the `filetree` package is not under `src/`.
`filetree.NewFileInfo` builds a `FileInfo` from a tar header; the kind is the
whiteout marker when present, otherwise it follows the header type flag. -/
def NewFileInfo (h : TarHeader) : FileInfo :=
  { path := h.name
    size := h.size
    kind :=
      if isWhiteoutPath h.name then FileKind.Whiteout
      else
        match h.typeflag with
        | TypeFlag.Reg => FileKind.Regular
        | TypeFlag.Dir => FileKind.Directory
        | TypeFlag.Sym => FileKind.SymbolicLink
        | _ => FileKind.Other }

/-- Modelled from the spec: the `filetree` package is not under `src/`.
`filetree.FileTree` — the archive name that produced the tree, the running
`FileSize` total maintained by `processLayerTar`, and the path-indexed record
map (an association list, last write per path wins). -/
structure FileTree where
  name : Str
  fileSize : Nat
  entries : List (Str × FileInfo)
deriving DecidableEq

/-- Modelled from the spec: the `filetree` package is not under `src/`.
`FileTree.AddPath` inserts a record at its path, replacing any prior record
at that path (spec section 4.1, last write wins). -/
def addPath (t : FileTree) (p : Str) (fi : FileInfo) : FileTree :=
  { t with
    entries :=
      if t.entries.any (fun e => e.1 == p) then
        t.entries.map (fun e => if e.1 == p then (p, fi) else e)
      else
        t.entries ++ [(p, fi)] }

/-- Lookup of the kept record at a path (spec section 4.2). -/
def FileTree.lookup (t : FileTree) (p : Str) : Option FileInfo :=
  (t.entries.find? (fun e => e.1 == p)).map (fun e => e.2)

/-- Definition following the claim's words (claim C6 / spec section 3):
the sum of the sizes of the kept `Regular` records of a tree.  It is compared
against the `fileSize` the code actually computes. -/
def keptRegularSize (t : FileTree) : Nat :=
  (t.entries.filterMap (fun e =>
    if e.2.kind = FileKind.Regular then some e.2.size else none)).sum

/-- Error text of `getFileList` for a `tar.TypeXGlobalHeader` record
(`tar.TypeXGlobalHeader` is the byte 'g' = 103, printed by `%v`). -/
def xGlobalHeaderErr (nm : Str) : Str :=
  "Provided Tar file '".toList ++ nm ++
    "' has unexpected header '103' (XGlobalHeader)".toList

/-- Error text of `getFileList` for a `tar.TypeXHeader` record
(`tar.TypeXHeader` is the byte 'x' = 120, printed by `%v`). -/
def xHeaderErr (nm : Str) : Str :=
  "Provided Tar file '".toList ++ nm ++
    "' has unexpected header '120' (XHeader)".toList

/-- The two header classes `getFileList` rejects. -/
def isExtHeader : TypeFlag → Bool
  | TypeFlag.XGlobalHeader => true
  | TypeFlag.XHeader => true
  | _ => false

/-- The error `getFileList` produces for a rejected record. -/
def extErrOf (h : TarHeader) : Str :=
  match h.typeflag with
  | TypeFlag.XGlobalHeader => xGlobalHeaderErr h.name
  | _ => xHeaderErr h.name

/-- First record with a rejected header class, defaulting to a harmless
regular record when none exists. -/
def firstExt (headers : List TarHeader) : TarHeader :=
  (headers.find? (fun h => isExtHeader h.typeflag)).getD
    { name := [], typeflag := TypeFlag.Reg, size := 0 }

/-- `getFileList` of `docker_image.go`: walk the records of one layer
sub-archive; reject `XGlobalHeader` and `XHeader` records with a descriptive
error, collect a `FileInfo` for every other record. -/
def getFileList : List TarHeader → Except Str (List FileInfo)
  | [] => Except.ok []
  | h :: rest =>
    match h.typeflag with
    | TypeFlag.XGlobalHeader => Except.error (xGlobalHeaderErr h.name)
    | TypeFlag.XHeader => Except.error (xHeaderErr h.name)
    | _ => (getFileList rest).map (fun fs => NewFileInfo h :: fs)

/-- `processLayerTar` of `docker_image.go`: build the tree of one layer.
For every file info, `tree.FileSize += uint64(element.Size)` (a wrapping
`uint64` addition) and then `tree.AddPath(element.Path, element)`. -/
def processLayerTar (nm : Str) (headers : List TarHeader) : Except Str FileTree :=
  match getFileList headers with
  | Except.error e => Except.error e
  | Except.ok fileInfos =>
    Except.ok (fileInfos.foldl
      (fun t el => addPath { t with fileSize := (t.fileSize + el.size) % U64 } el.path el)
      { name := nm, fileSize := 0, entries := [] })

/-- Go `strings.TrimPrefix`: the string without the given leading part when
that part is present, the string unchanged otherwise. -/
def trimPre (s p : Str) : Str :=
  if p.isPrefixOf s then s.drop p.length else s

/-- One entry of the image config history (`dockerImageHistoryEntry`): the
resolved layer id, the creating command, the empty-layer flag and the size
`Analyze` fills in. -/
structure dockerImageHistoryEntry where
  ID : Str
  CreatedBy : Str
  EmptyLayer : Bool
  Size : Nat
deriving DecidableEq

/-- The `rootfs` section of the image config: the ordered diff-id list. -/
structure rootFs where
  DiffIds : List Str
deriving DecidableEq

/-- Parsed image config (`dockerImageConfig`): chronological history and the
rootfs diff-ids. -/
structure dockerImageConfig where
  History : List dockerImageHistoryEntry
  RootFs : rootFs
deriving DecidableEq

/-- Parsed image manifest (`dockerImageManifest`): config blob path and the
chronological layer tar paths. -/
structure dockerImageManifest where
  ConfigPath : Str
  LayerTarPaths : List Str
deriving DecidableEq

/-- `newDockerImageManifest`: JSON decoding itself is external
(`encoding/json`), so the function consumes the decoding outcome, `none`
standing for a decode error.  On a decode error the source calls
`logrus.Panic` (a panic), and it then returns `manifest[0]`, which panics on
an empty decoded array; both panics are `none`. -/
def newDockerImageManifest (parsed : Option (List dockerImageManifest)) :
    Option dockerImageManifest :=
  match parsed with
  | none => none
  | some ms => ms.head?

/-- The sentinel id "&lt;missing&gt;" (written here by character codes) that
`newDockerImageConfig` assigns to empty-layer history entries. -/
def missingId : Str := "<missing>".toList

/-- The id-assignment loop of `newDockerImageConfig`: every non-empty history
entry takes the next unused diff-id (`DiffIds[layerIdx]` panics — `none` —
when the diff-ids run out), every empty-layer entry gets the sentinel id. -/
def assignIds : List dockerImageHistoryEntry → List Str →
    Option (List dockerImageHistoryEntry)
  | [], _ => some []
  | h :: rest, ids =>
    if h.EmptyLayer then
      (assignIds rest ids).map (fun r => { h with ID := missingId } :: r)
    else
      match ids with
      | [] => none
      | id0 :: ids2 => (assignIds rest ids2).map (fun r => { h with ID := id0 } :: r)

/-- `newDockerImageConfig`: decode outcome in, `logrus.Panic` on a decode
error (`none`), then the id-assignment loop. -/
def newDockerImageConfig (parsed : Option dockerImageConfig) :
    Option dockerImageConfig :=
  match parsed with
  | none => none
  | some cfg =>
    (assignIds cfg.History cfg.RootFs.DiffIds).map
      (fun h => { cfg with History := h })

/-- `dockerLayer`: one assembled layer — tar path, history entry, caller
facing index, and the (nil-able) tree pointer. -/
structure dockerLayer where
  tarPath : Str
  history : dockerImageHistoryEntry
  index : Int
  tree : Option FileTree
deriving DecidableEq

/-- `dockerLayer.Size` returns `layer.history.Size`. -/
def dockerLayer.Size (layer : dockerLayer) : Nat :=
  layer.history.Size

/-- `dockerLayer.Index` returns the layer's position field. -/
def dockerLayer.Index (layer : dockerLayer) : Int :=
  layer.index

/-- `dockerLayer.Tree` returns the layer's tree pointer. -/
def dockerLayer.Tree (layer : dockerLayer) : Option FileTree :=
  layer.tree

/-- `dockerLayer.Command` returns the history entry's command with the
literal shell wrapper trimmed (`strings.TrimPrefix`). -/
def dockerLayer.Command (layer : dockerLayer) : Str :=
  trimPre layer.history.CreatedBy ("/bin/sh -c ".toList)

/-- All elements of a list of Go pointers, provided none is nil. -/
def allSome : List (Option α) → Option (List α)
  | [] => some []
  | none :: _ => none
  | some a :: rest => (allSome rest).map (fun r => a :: r)

/-- Modelled from the spec: `filetree.Efficiency` is not under `src/`.
The efficiency score of spec section 4.4 step 5: `1 - wasted / userSize`
for positive `userSize`, and `1` when `userSize` is zero. -/
def specEfficiencyScore (wasted userSize : Nat) : ℚ :=
  if userSize = 0 then 1 else 1 - (wasted : ℚ) / (userSize : ℚ)

/-- Modelled from the spec: ordered sizes of the `Regular` occurrences of a
path across the chronological trees (spec section 4.4 step 1). -/
def regularOccs (trees : List FileTree) (p : Str) : List Nat :=
  trees.filterMap (fun t =>
    (t.lookup p).bind (fun fi =>
      if fi.kind = FileKind.Regular then some fi.size else none))

/-- Modelled from the spec: wasted bytes of one path — all occurrences but
the kept (last) one (spec section 4.4 steps 2 and 3). -/
def pathWaste (trees : List FileTree) (p : Str) : Nat :=
  ((regularOccs trees p).dropLast).sum

/-- Every path observed across the trees, without duplicates. -/
def allPaths (trees : List FileTree) : List Str :=
  (trees.flatMap (fun t => t.entries.map (fun e => e.1))).dedup

/-- Modelled from the spec: one entry of the duplication report
(`fileData` with its `CumulativeSize` field). -/
structure FileData where
  path : Str
  CumulativeSize : Nat
deriving DecidableEq

/-- Modelled from the spec: the duplicate-path report — paths with positive
waste, each with its cumulative wasted size (spec section 4.4 step 3). -/
def specInefficiencies (trees : List FileTree) : List FileData :=
  (allPaths trees).filterMap (fun p =>
    if pathWaste trees p = 0 then none
    else some { path := p, CumulativeSize := pathWaste trees p })

/-- Modelled from the spec: `userSizeBytes` of spec section 4.4 step 6 — the
total of every tree's size excluding the chronologically first (base) tree. -/
def specUserSizeBytes (trees : List FileTree) : Nat :=
  ((trees.drop 1).map (fun t => t.fileSize)).sum

/-- Modelled from the spec: the total wasted bytes. -/
def specWastedBytes (trees : List FileTree) : Nat :=
  ((specInefficiencies trees).map (fun fd => fd.CumulativeSize)).sum

/-- Modelled from the spec: `filetree.Efficiency` is not under `src/`.
It walks every tree, so a nil tree pointer makes it panic (`none`);
otherwise it returns the aggregate score and the duplication report. -/
def Efficiency (treesOpt : List (Option FileTree)) : Option (ℚ × List FileData) :=
  match allSome treesOpt with
  | none => none
  | some trees =>
    some (specEfficiencyScore (specWastedBytes trees) (specUserSizeBytes trees),
      specInefficiencies trees)

/-- Go slice read `l[i]` with an `int` index: panic (`none`) out of range. -/
def getChecked (l : List α) (i : Int) : Option α :=
  if 0 ≤ i then l.get? i.toNat else none

/-- Go slice write `l[i] = a` with an `int` index: panic (`none`) out of
range. -/
def setChecked (l : List α) (i : Int) (a : α) : Option (List α) :=
  if 0 ≤ i ∧ i.toNat < l.length then some (l.set i.toNat a) else none

/-- The layer-assembly loop of `Analyze` (docker_image.go lines 179-199).
For every history entry that is not an empty layer:
`tree := trees[(len(trees)-1)-layerIdx]`, `history.Size = tree.FileSize`,
then `layers[layerIdx] = &dockerLayer{history, layerIdx, trees[layerIdx],
LayerTarPaths[tarPathIdx]}`, then `layerIdx--; tarPathIdx++`.  Out-of-range
slice indexing and the nil-tree dereference in `tree.FileSize` panic
(`none`). -/
def analyzeLoop (trees : List (Option FileTree)) (paths : List Str) :
    List dockerImageHistoryEntry → Int → Nat → List (Option dockerLayer) →
    Option (List (Option dockerLayer))
  | [], _, _, layers => some layers
  | h :: rest, layerIdx, tarPathIdx, layers =>
    if h.EmptyLayer then
      analyzeLoop trees paths rest layerIdx tarPathIdx layers
    else
      (getChecked trees ((trees.length : Int) - 1 - layerIdx)).bind fun treeOpt =>
        treeOpt.bind fun tree =>
          (getChecked trees layerIdx).bind fun treeRef =>
            (paths.get? tarPathIdx).bind fun tp =>
              (setChecked layers layerIdx
                  (some
                    { tarPath := tp
                      history := { h with Size := tree.fileSize }
                      index := layerIdx
                      tree := treeRef })).bind fun layers2 =>
                analyzeLoop trees paths rest (layerIdx - 1) (tarPathIdx + 1) layers2

/-- `AnalysisResult` with the source's field names (including the
`UserSizeByes` typo).  `WastedUserPercent` is a float in the source; the Go
float division by a zero `UserSizeByes` yields a non-finite value, embedded
as `none`. -/
structure AnalysisResult where
  Layers : List dockerLayer
  RefTrees : List (Option FileTree)
  Efficiency : ℚ
  UserSizeByes : Nat
  SizeBytes : Nat
  WastedBytes : Nat
  WastedUserPercent : Option ℚ
  Inefficiencies : List FileData

/-- Go map read of a pointer-valued map: a missing key yields the nil
pointer, not a panic. -/
def lookupTree (layerMap : List (Str × FileTree)) (nm : Str) : Option FileTree :=
  (layerMap.find? (fun e => e.1 == nm)).map (fun e => e.2)

/-- The wrapping `uint64` total of every layer's `Size()`
(the `sizeBytes` accumulator of the summation loop). -/
def sumSizes (layersF : List dockerLayer) : Nat :=
  layersF.foldl (fun acc l => (acc + dockerLayer.Size l) % U64) 0

/-- The wrapping `uint64` total of the reversed duplication report
(the `wastedBytes` loop). -/
def sumWasted (ineffs : List FileData) : Nat :=
  ineffs.reverse.foldl (fun acc fd => (acc + fd.CumulativeSize) % U64) 0

/-- The `AnalysisResult` literal `Analyze` returns, given the tree list, the
`filetree.Efficiency` output pair and the non-nil layer sequence:
`sizeBytes` sums every layer's `Size()`, `userSizeBytes` the same skipping
index 0, `wastedBytes` sums the reversed duplication report. -/
def mkAnalysisResult (trees : List (Option FileTree))
    (effPair : ℚ × List FileData) (layersF : List dockerLayer) : AnalysisResult :=
  { Layers := layersF
    RefTrees := trees
    Efficiency := effPair.1
    UserSizeByes := sumSizes (layersF.drop 1)
    SizeBytes := sumSizes layersF
    WastedBytes := sumWasted effPair.2
    WastedUserPercent :=
      if sumSizes (layersF.drop 1) = 0 then none
      else some ((sumWasted effPair.2 : ℚ) / (sumSizes (layersF.drop 1) : ℚ))
    Inefficiencies := effPair.2 }

/-- The body of `Analyze` after the manifest and config are built
(docker_image.go lines 169-228): build the chronological tree list from the
manifest paths (missing trees become nil), run the assembly loop, run
`filetree.Efficiency`, then the summation loop (a nil layer slot panics —
`none`) and the wasted-bytes loop, assembled by `mkAnalysisResult`. -/
def analyzeCore (manifest : dockerImageManifest) (config : dockerImageConfig)
    (layerMap : List (Str × FileTree)) : Option AnalysisResult :=
  (analyzeLoop (manifest.LayerTarPaths.map (lookupTree layerMap))
      manifest.LayerTarPaths config.History
      (((manifest.LayerTarPaths.map (lookupTree layerMap)).length : Int) - 1) 0
      (List.replicate (manifest.LayerTarPaths.map (lookupTree layerMap)).length
        none)).bind fun layersOpt =>
    (Efficiency (manifest.LayerTarPaths.map (lookupTree layerMap))).bind
      fun effPair =>
        (allSome layersOpt).map fun layersF =>
          mkAnalysisResult (manifest.LayerTarPaths.map (lookupTree layerMap))
            effPair layersF

/-- `Analyze` (docker_image.go lines 163-229): build the manifest from the
decoded `manifest.json`, build the config from the decoded blob at the
manifest's config path, then run the analysis body. -/
def Analyze (manifestParsed : Option (List dockerImageManifest))
    (configParsedAt : Str → Option dockerImageConfig)
    (layerMap : List (Str × FileTree)) : Option AnalysisResult :=
  match newDockerImageManifest manifestParsed with
  | none => none
  | some manifest =>
    match newDockerImageConfig (configParsedAt manifest.ConfigPath) with
    | none => none
    | some config => analyzeCore manifest config layerMap

/-- History entries that carry layer content (spec section 3). -/
def nonEmptyEntries (l : List dockerImageHistoryEntry) :
    List dockerImageHistoryEntry :=
  l.filter (fun h => !h.EmptyLayer)

/-- Placeholder history entry used only as a `getD` default. -/
def defaultHistory : dockerImageHistoryEntry :=
  { ID := [], CreatedBy := [], EmptyLayer := false, Size := 0 }

/-- Placeholder layer used only as a `getD` default. -/
def defaultLayer : dockerLayer :=
  { tarPath := [], history := defaultHistory, index := 0, tree := none }

/-- Placeholder tree used only as a `getD` default. -/
def emptyTree : FileTree :=
  { name := [], fileSize := 0, entries := [] }

/-- Size of the i-th chronological tree (0 for a nil or absent tree). -/
def treeSizeAt (trees : List (Option FileTree)) (i : Nat) : Nat :=
  ((trees.getD i none).getD emptyTree).fileSize

/-- The layer the assembly loop builds for the (t+m)-th non-empty history
entry: tar path `paths[t+m]`, history with the size of tree `t+m`, index
`n-1-(t+m)`, and — as the source writes it — the tree at slot `n-1-(t+m)`,
not the tree the size came from. -/
def mkLayerAt (trees : List (Option FileTree)) (paths : List Str)
    (ne : List dockerImageHistoryEntry) (t m : Nat) : dockerLayer :=
  { tarPath := paths.getD (t + m) []
    history := { ne.getD m defaultHistory with Size := treeSizeAt trees (t + m) }
    index := (trees.length : Int) - 1 - (t + m)
    tree := trees.getD (trees.length - 1 - (t + m)) none }

/-- Concrete two-layer image, base tree of the manifest. -/
def exTreeA : FileTree :=
  { name := "a/layer.tar".toList, fileSize := 100, entries := [] }

/-- Concrete two-layer image, newest tree of the manifest. -/
def exTreeB : FileTree :=
  { name := "b/layer.tar".toList, fileSize := 40, entries := [] }

/-- Concrete two-layer manifest: base tar path first (chronological). -/
def exManifest : dockerImageManifest :=
  { ConfigPath := "config.json".toList
    LayerTarPaths := ["a/layer.tar".toList, "b/layer.tar".toList] }

/-- Concrete layer map holding both built trees. -/
def exLayerMap : List (Str × FileTree) :=
  [("a/layer.tar".toList, exTreeA), ("b/layer.tar".toList, exTreeB)]

/-- Concrete config: two non-empty history entries, oldest first. -/
def exRawConfig : dockerImageConfig :=
  { History :=
      [{ ID := [], CreatedBy := "FROM-base".toList, EmptyLayer := false, Size := 0 },
       { ID := [], CreatedBy := "RUN touch b".toList, EmptyLayer := false, Size := 0 }]
    RootFs := { DiffIds := ["sha-a".toList, "sha-b".toList] } }

/-- Decoded-JSON oracle for the two-layer image: the config blob lives at the
manifest's config path; every other path fails to decode. -/
def exConfigLookup : Str → Option dockerImageConfig :=
  fun p => if p == "config.json".toList then some exRawConfig else none

/-- Scenario-C fixture: three manifest layer paths and all three trees. -/
def exManifest3 : dockerImageManifest :=
  { ConfigPath := "config.json".toList
    LayerTarPaths :=
      ["a/layer.tar".toList, "b/layer.tar".toList, "c/layer.tar".toList] }

/-- Scenario-C layer map: every manifest path has a built tree. -/
def exLayerMap3 : List (Str × FileTree) :=
  [("a/layer.tar".toList, exTreeA), ("b/layer.tar".toList, exTreeB),
   ("c/layer.tar".toList, { name := "c/layer.tar".toList, fileSize := 7, entries := [] })]

/-- Scenario-C config: only two non-empty history entries (plus one
metadata-only entry) against three manifest layer paths. -/
def exConfig3 : dockerImageConfig :=
  { History :=
      [{ ID := [], CreatedBy := "FROM-base".toList, EmptyLayer := false, Size := 0 },
       { ID := [], CreatedBy := "ENV x=1".toList, EmptyLayer := true, Size := 0 },
       { ID := [], CreatedBy := "RUN touch b".toList, EmptyLayer := false, Size := 0 }]
    RootFs := { DiffIds := ["sha-a".toList, "sha-b".toList] } }

/-- Scenario-C decoded-JSON oracle. -/
def exConfigLookup3 : Str → Option dockerImageConfig :=
  fun p => if p == "config.json".toList then some exConfig3 else none

/-- Missing-tree fixture: one manifest layer path, no built tree. -/
def exManifest4 : dockerImageManifest :=
  { ConfigPath := "config.json".toList
    LayerTarPaths := ["a/layer.tar".toList] }

/-- Missing-tree config: one non-empty history entry. -/
def exConfig4 : dockerImageConfig :=
  { History :=
      [{ ID := [], CreatedBy := "FROM-base".toList, EmptyLayer := false, Size := 0 }]
    RootFs := { DiffIds := ["sha-a".toList] } }

/-- Missing-tree decoded-JSON oracle. -/
def exConfigLookup4 : Str → Option dockerImageConfig :=
  fun p => if p == "config.json".toList then some exConfig4 else none

/-- Claim C6 counterexample records: two regular records at one path. -/
def exC6Headers : List TarHeader :=
  [{ name := "/a".toList, typeflag := TypeFlag.Reg, size := 100 },
   { name := "/a".toList, typeflag := TypeFlag.Reg, size := 40 }]

/-- A single ordinary record, used to instantiate the amended C6 theorem. -/
def exC6Witness : List TarHeader :=
  [{ name := "/b".toList, typeflag := TypeFlag.Reg, size := 7 }]

/-- A record sequence holding an extended-header record, for claim C7. -/
def exC7Headers : List TarHeader :=
  [{ name := "/ok".toList, typeflag := TypeFlag.Reg, size := 1 },
   { name := "/bad".toList, typeflag := TypeFlag.XHeader, size := 0 }]

/-- Single-layer valid fixture instantiating the assembler theorem (C8). -/
def exManifest8 : dockerImageManifest :=
  { ConfigPath := "config.json".toList
    LayerTarPaths := ["a/layer.tar".toList] }

/-- Single-layer config for the assembler witness. -/
def exConfig8 : dockerImageConfig :=
  { History :=
      [{ ID := "sha-a".toList, CreatedBy := "FROM-base".toList,
         EmptyLayer := false, Size := 0 }]
    RootFs := { DiffIds := ["sha-a".toList] } }

/-- Single-layer map for the assembler witness. -/
def exLayerMap8 : List (Str × FileTree) :=
  [("a/layer.tar".toList, exTreeA)]

/-- Concrete layer whose command carries the shell wrapper, for claim C10. -/
def exCmdLayer : dockerLayer :=
  { tarPath := "a/layer.tar".toList
    history :=
      { ID := "sha-a".toList, CreatedBy := "/bin/sh -c apt-get update".toList,
        EmptyLayer := false, Size := 0 }
    index := 0
    tree := none }

/-- Claim C5: the efficiency-score computation is total — the score is
`1 - wasted / userSize` for positive `userSize` and is defined as `1` when
`userSize` is zero, instead of a division-by-zero failure. -/
theorem efficiency_score_total (w u : Nat) :
    (u = 0 → specEfficiencyScore w u = 1) ∧
      (0 < u → specEfficiencyScore w u = 1 - (w : ℚ) / (u : ℚ)) := by
  constructor
  · intro h
    simp [specEfficiencyScore, h]
  · intro h
    rw [specEfficiencyScore, if_neg (Nat.pos_iff_ne_zero.mp h)]

/-- Witness for the efficiency-score theorem at both branches. -/
theorem efficiency_score_total_witness :
    ((0 : Nat) = 0 ∧ specEfficiencyScore 3 0 = 1) ∧
      ((0 : Nat) < 2 ∧ specEfficiencyScore 1 2 = 1 - (1 : ℚ) / 2) :=
  ⟨⟨rfl, (efficiency_score_total 3 0).1 rfl⟩,
   ⟨by decide, (efficiency_score_total 1 2).2 (by decide)⟩⟩

/-- Claim C1 (code bug): on a two-layer image whose trees have sizes 100
(base) and 40 (newest), the assembled layer at slot 1 reports size 100 —
taken from the chronological tree — but stores the tree of size 40, so
`layers[1].tree.totalSize() != layers[1].size`, contradicting the claimed
invariant. -/
theorem analyze_stores_mismatched_tree :
    ((Analyze (some [exManifest]) exConfigLookup exLayerMap).bind
        (fun r => r.Layers.get? 1)).map
        (fun l => (l.history.Size, l.tree.map (fun t => t.fileSize))) =
      some (100, some 40) ∧ (100 : Nat) ≠ 40 :=
  ⟨rfl, by decide⟩

/-- Claim C2 (code bug): on the same two-layer image, `sizeBytes` is the
full 140 as claimed, but `userSizeBytes` is 100 — the sum minus the size of
`layers[0]`, the chronologically newest layer — whereas the claim requires
the sum minus the base layer's 100, i.e. 40. -/
theorem analyze_user_size_excludes_newest :
    (Analyze (some [exManifest]) exConfigLookup exLayerMap).map
        (fun r => (r.SizeBytes, r.UserSizeByes)) = some (140, 100) ∧
      (100 : Nat) ≠ 140 - 100 :=
  ⟨rfl, by decide⟩

/-- Claim C3 (code bug): with three manifest layer paths but only two
non-empty history entries the analysis panics (nil layer slot dereferenced
in the summation loop) instead of failing with a `ManifestMismatchError`. -/
theorem analyze_count_mismatch_crashes :
    Analyze (some [exManifest3]) exConfigLookup3 exLayerMap3 = none := rfl

/-- Claim C4 (code bug): with a manifest layer path that has no built tree
the analysis panics (nil tree dereferenced at `tree.FileSize`) instead of
failing with a `MissingLayerTreeError`. -/
theorem analyze_missing_tree_crashes :
    Analyze (some [exManifest4]) exConfigLookup4 [] = none := rfl

/-- Claim C9 (code bug): a manifest or config that fails to decode, and a
manifest that decodes to an empty array, all make the constructors panic
(`logrus.Panic`, index out of range) rather than surface an error value. -/
theorem manifest_config_parse_crashes :
    newDockerImageManifest none = none ∧
      newDockerImageManifest (some []) = none ∧
      newDockerImageConfig none = none :=
  ⟨rfl, rfl, rfl⟩

/-- Claim C6 counterexample: a layer with two regular records at one path
(sizes 100 then 40) gets `fileSize` 140 — every record counted once — while
the sum of the kept regular records of its tree is 40, so the claim as
stated is false. -/
theorem layer_size_counts_all_records_cex :
    (processLayerTar ("x".toList) exC6Headers).map
        (fun t => (t.fileSize, keptRegularSize t)) = Except.ok (140, 40) ∧
      (140 : Nat) ≠ 40 :=
  ⟨rfl, by decide⟩

/-- A list is a leading part of itself followed by anything. -/
lemma isPrefixOf_append_self (p r : Str) : p.isPrefixOf (p ++ r) = true := by
  induction p with
  | nil => simp [List.isPrefixOf]
  | cons a as ih => simp [List.isPrefixOf, ih]

/-- A Boolean leading-part test certifies a decomposition. -/
lemma exists_of_isPre (p : Str) : ∀ s, p.isPrefixOf s = true → ∃ r, s = p ++ r := by
  induction p with
  | nil => exact fun s _ => ⟨s, rfl⟩
  | cons a as ih =>
    intro s h
    cases s with
    | nil => simp [List.isPrefixOf] at h
    | cons b bs =>
      simp only [List.isPrefixOf, Bool.and_eq_true, beq_iff_eq] at h
      obtain ⟨rfl, h2⟩ := h
      obtain ⟨r, rfl⟩ := ih bs h2
      exact ⟨r, rfl⟩

/-- Claim C10: `Command()` returns the history entry's `createdBy` with the
literal shell wrapper removed when present, and unchanged otherwise. -/
theorem command_strips_shell_wrapper (layer : dockerLayer) :
    (∀ rest : Str, layer.history.CreatedBy = "/bin/sh -c ".toList ++ rest →
        dockerLayer.Command layer = rest) ∧
      ((∀ rest : Str, layer.history.CreatedBy ≠ "/bin/sh -c ".toList ++ rest) →
        dockerLayer.Command layer = layer.history.CreatedBy) := by
  constructor
  · intro rest h
    simp [dockerLayer.Command, trimPre, h, isPrefixOf_append_self, List.drop_left]
  · intro hne
    by_cases hp : ("/bin/sh -c ".toList).isPrefixOf layer.history.CreatedBy = true
    · obtain ⟨r, hr⟩ := exists_of_isPre _ _ hp
      exact absurd hr (hne r)
    · unfold dockerLayer.Command trimPre
      rw [if_neg hp]

/-- Witness for the command theorem on a concrete layer. -/
theorem command_strips_shell_wrapper_witness :
    exCmdLayer.history.CreatedBy =
        "/bin/sh -c ".toList ++ "apt-get update".toList ∧
      dockerLayer.Command exCmdLayer = "apt-get update".toList :=
  ⟨by decide, (command_strips_shell_wrapper exCmdLayer).1 _ (by decide)⟩


/-- The path sits inside the XGlobalHeader rejection text. -/
lemma name_infix_xg (nm : Str) : nm <:+: xGlobalHeaderErr nm :=
  ⟨"Provided Tar file '".toList,
   "' has unexpected header '103' (XGlobalHeader)".toList, rfl⟩

/-- The path sits inside the XHeader rejection text. -/
lemma name_infix_xh (nm : Str) : nm <:+: xHeaderErr nm :=
  ⟨"Provided Tar file '".toList,
   "' has unexpected header '120' (XHeader)".toList, rfl⟩

/-- The rejection error always embeds the offending record's path. -/
lemma name_infix_extErr (h0 : TarHeader) : h0.name <:+: extErrOf h0 := by
  obtain ⟨nm, tf, sz⟩ := h0
  cases tf
  case XGlobalHeader => exact name_infix_xg nm
  all_goals exact name_infix_xh nm

/-- The record walk stops with the matching error at the first record whose
header class is rejected. -/
lemma getFileList_err_of_find (headers : List TarHeader) (h0 : TarHeader)
    (hfind : headers.find? (fun h => isExtHeader h.typeflag) = some h0) :
    getFileList headers = Except.error (extErrOf h0) := by
  induction headers with
  | nil => simp [List.find?] at hfind
  | cons hd rest ih =>
    obtain ⟨nm, tf, sz⟩ := hd
    cases tf
    case XGlobalHeader =>
      rw [List.find?_cons_of_pos _ (by rfl)] at hfind
      obtain rfl := Option.some.inj hfind
      rfl
    case XHeader =>
      rw [List.find?_cons_of_pos _ (by rfl)] at hfind
      obtain rfl := Option.some.inj hfind
      rfl
    all_goals
      rw [List.find?_cons_of_neg _ (by simp [isExtHeader])] at hfind
      simp only [getFileList, ih hfind]
      rfl

/-- Claim C7: a layer record sequence containing an extended-header record
makes the layer build fail with a format error whose text contains the first
offending record's path; no tree is returned. -/
theorem layer_build_fails_on_ext_header (nm : Str) (headers : List TarHeader)
    (hex : ∃ h, h ∈ headers ∧ isExtHeader h.typeflag = true) :
    processLayerTar nm headers = Except.error (extErrOf (firstExt headers)) ∧
      (firstExt headers).name <:+: extErrOf (firstExt headers) := by
  have hsome : (headers.find? (fun h => isExtHeader h.typeflag)).isSome := by
    rw [List.find?_isSome]
    obtain ⟨h, hm, hx⟩ := hex
    exact ⟨h, hm, hx⟩
  obtain ⟨h0, hf⟩ := Option.isSome_iff_exists.mp hsome
  have hfe : firstExt headers = h0 := by simp [firstExt, hf]
  rw [hfe]
  refine ⟨?_, name_infix_extErr h0⟩
  simp [processLayerTar, getFileList_err_of_find headers h0 hf]

/-- Witness for the extended-header theorem on a concrete sequence. -/
theorem layer_build_fails_on_ext_header_witness :
    (∃ h, h ∈ exC7Headers ∧ isExtHeader h.typeflag = true) ∧
      (processLayerTar ("x".toList) exC7Headers =
          Except.error (extErrOf (firstExt exC7Headers)) ∧
        (firstExt exC7Headers).name <:+: extErrOf (firstExt exC7Headers)) :=
  ⟨by decide, layer_build_fails_on_ext_header _ _ (by decide)⟩

/-- The modulus of `uint64` arithmetic is positive. -/
lemma U64_pos : 0 < U64 := by norm_num [U64]

/-- Without rejected header classes, the record walk succeeds and maps every
header to its file info, in order. -/
lemma getFileList_ok_of_no_ext (headers : List TarHeader)
    (hx : ∀ h ∈ headers, isExtHeader h.typeflag = false) :
    getFileList headers = Except.ok (headers.map NewFileInfo) := by
  induction headers with
  | nil => rfl
  | cons hd rest ih =>
    have hhd := hx hd (by simp)
    have hrest : ∀ h ∈ rest, isExtHeader h.typeflag = false :=
      fun h hm => hx h (by simp [hm])
    obtain ⟨nm, tf, sz⟩ := hd
    cases tf
    case XGlobalHeader => exact absurd hhd (by simp [isExtHeader])
    case XHeader => exact absurd hhd (by simp [isExtHeader])
    all_goals simp [getFileList, ih hrest, Except.map]

/-- Inserting a record never changes the running size total. -/
lemma addPath_fileSize (t : FileTree) (p : Str) (fi : FileInfo) :
    (addPath t p fi).fileSize = t.fileSize := rfl

/-- The size accumulation of `processLayerTar` over a list of file infos is
the wrapping sum of their sizes. -/
lemma buildTree_fileSize (infos : List FileInfo) :
    ∀ t0 : FileTree, t0.fileSize < U64 →
      (infos.foldl
          (fun t el =>
            addPath { t with fileSize := (t.fileSize + el.size) % U64 } el.path el)
          t0).fileSize =
        (t0.fileSize + (infos.map (fun el => el.size)).sum) % U64 := by
  induction infos with
  | nil =>
    intro t0 h
    simp [Nat.mod_eq_of_lt h]
  | cons el rest ih =>
    intro t0 h
    rw [List.foldl_cons, ih _ (by rw [addPath_fileSize]; exact Nat.mod_lt _ U64_pos)]
    rw [addPath_fileSize]
    simp [Nat.mod_add_mod, Nat.add_assoc]

/-- Claim C6 amended: for a layer record sequence with no extended-header
records the build succeeds and the tree's `fileSize` is the `uint64` sum of
the declared sizes of ALL records — each record counted once, regardless of
its kind and of later records at the same path. -/
theorem process_layer_tar_total_size (nm : Str) (headers : List TarHeader)
    (hx : ∀ h ∈ headers, isExtHeader h.typeflag = false) :
    (processLayerTar nm headers).map (fun t => t.fileSize) =
      Except.ok ((headers.map (fun h => h.size)).sum % U64) := by
  rw [processLayerTar, getFileList_ok_of_no_ext headers hx]
  show Except.ok ((List.map NewFileInfo headers).foldl
      (fun t el =>
        addPath { t with fileSize := (t.fileSize + el.size) % U64 } el.path el)
      { name := nm, fileSize := 0, entries := [] }).fileSize = _
  rw [buildTree_fileSize _ _ U64_pos]
  simp only [Nat.zero_add, List.map_map]
  rfl

/-- Witness for the amended size theorem on a concrete record sequence. -/
theorem process_layer_tar_total_size_witness :
    (∀ h ∈ exC6Witness, isExtHeader h.typeflag = false) ∧
      (processLayerTar ("x".toList) exC6Witness).map (fun t => t.fileSize) =
        Except.ok ((exC6Witness.map (fun h => h.size)).sum % U64) :=
  ⟨by decide, process_layer_tar_total_size _ _ (by decide)⟩

/-- Reading the slot just written. -/
lemma get?_set_self (l : List α) : ∀ (i : Nat) (a : α), i < l.length →
    (l.set i a).get? i = some a := by
  induction l with
  | nil => intro i a h; simp at h
  | cons b bs ih =>
    intro i a h
    cases i with
    | zero => rfl
    | succ j => exact ih j a (Nat.lt_of_succ_lt_succ h)

/-- Reading any other slot after a write. -/
lemma get?_set_other (l : List α) : ∀ (i j : Nat) (a : α), i ≠ j →
    (l.set i a).get? j = l.get? j := by
  induction l with
  | nil => intro i j a _; rfl
  | cons b bs ih =>
    intro i j a hne
    cases i with
    | zero =>
      cases j with
      | zero => exact absurd rfl hne
      | succ k => rfl
    | succ m =>
      cases j with
      | zero => rfl
      | succ k => exact ih m k a (fun he => hne (by rw [he]))

/-- An in-range read yields the defaulted read. -/
lemma get?_eq_some_getD (l : List α) (i : Nat) (d : α) (h : i < l.length) :
    l.get? i = some (l.getD i d) := by
  cases hx : l.get? i with
  | none => exact absurd (List.get?_eq_none.mp hx) (by omega)
  | some x =>
    have hg : l[i]? = some x := by rw [← List.get?_eq_getElem?]; exact hx
    simp [List.getD_eq_getElem?_getD, hg]

/-- `allSome` preserves length. -/
lemma allSome_length : ∀ {l : List (Option α)} {r : List α},
    allSome l = some r → r.length = l.length := by
  intro l
  induction l with
  | nil => intro r h; obtain rfl := Option.some.inj h.symm; rfl
  | cons x rest ih =>
    intro r h
    cases x with
    | none => simp [allSome] at h
    | some a =>
      cases hr : allSome rest with
      | none => rw [allSome, hr] at h; simp at h
      | some r2 =>
        rw [allSome, hr] at h
        obtain rfl := Option.some.inj h.symm
        simp [ih hr]

/-- `allSome` keeps every position. -/
lemma allSome_get? : ∀ {l : List (Option α)} {r : List α},
    allSome l = some r → ∀ j, l.get? j = (r.get? j).map some := by
  intro l
  induction l with
  | nil =>
    intro r h j
    obtain rfl := Option.some.inj h.symm
    rfl
  | cons x rest ih =>
    intro r h j
    cases x with
    | none => simp [allSome] at h
    | some a =>
      cases hr : allSome rest with
      | none => rw [allSome, hr] at h; simp at h
      | some r2 =>
        rw [allSome, hr] at h
        obtain rfl := Option.some.inj h.symm
        cases j with
        | zero => rfl
        | succ k => exact ih hr k

/-- `allSome` succeeds when every slot holds a value. -/
lemma allSome_of_all_some (l : List (Option α))
    (h : ∀ j, j < l.length → ∃ a, l.get? j = some (some a)) :
    ∃ r, allSome l = some r := by
  induction l with
  | nil => exact ⟨[], rfl⟩
  | cons x rest ih =>
    obtain ⟨a, ha⟩ := h 0 (by simp)
    obtain rfl : x = some a := Option.some.inj ha
    obtain ⟨r, hr⟩ :=
      ih (fun j hj => h (j + 1) (by simpa using Nat.succ_lt_succ hj))
    exact ⟨a :: r, by rw [allSome, hr]; rfl⟩

/-- Splitting the non-empty entries at a content-bearing head. -/
lemma nonEmptyEntries_cons_false (h : dockerImageHistoryEntry)
    (rest : List dockerImageHistoryEntry) (he : h.EmptyLayer = false) :
    nonEmptyEntries (h :: rest) = h :: nonEmptyEntries rest := by
  simp [nonEmptyEntries, List.filter_cons, he]

/-- Splitting the non-empty entries at a metadata-only head. -/
lemma nonEmptyEntries_cons_true (h : dockerImageHistoryEntry)
    (rest : List dockerImageHistoryEntry) (he : h.EmptyLayer = true) :
    nonEmptyEntries (h :: rest) = nonEmptyEntries rest := by
  simp [nonEmptyEntries, List.filter_cons, he]

/-- A shifted cursor reads the same layer record. -/
lemma mkLayerAt_cons (trees : List (Option FileTree)) (paths : List Str)
    (h : dockerImageHistoryEntry) (ne : List dockerImageHistoryEntry)
    (t m : Nat) :
    mkLayerAt trees paths (h :: ne) t (m + 1) =
      mkLayerAt trees paths ne (t + 1) m := by
  have hidx : t + (m + 1) = t + 1 + m := by omega
  simp [mkLayerAt, hidx]
  omega

/-- Invariant of the assembly loop on a valid tail: starting at the t-th
non-empty entry with the reverse cursor at `n - 1 - t`, the loop succeeds,
writes exactly the slots `n - 1 - (t + m)` with the layer records of the
remaining non-empty entries, and leaves every other slot unchanged. -/
lemma analyzeLoop_valid (trees : List (Option FileTree)) (paths : List Str)
    (hlen : paths.length = trees.length)
    (hsome : ∀ i, i < trees.length → ∃ tr, trees.get? i = some (some tr)) :
    ∀ (hist : List dockerImageHistoryEntry) (t : Nat)
      (layers : List (Option dockerLayer)),
      layers.length = trees.length →
      t + (nonEmptyEntries hist).length = trees.length →
      ∃ out,
        analyzeLoop trees paths hist ((trees.length : Int) - 1 - t) t layers =
            some out ∧
          out.length = trees.length ∧
          (∀ m, m < (nonEmptyEntries hist).length →
            out.get? (trees.length - 1 - (t + m)) =
              some (some (mkLayerAt trees paths (nonEmptyEntries hist) t m))) ∧
          (∀ j, (∀ m, m < (nonEmptyEntries hist).length →
              j ≠ trees.length - 1 - (t + m)) →
            out.get? j = layers.get? j) := by
  intro hist
  induction hist with
  | nil =>
    intro t layers hlay hcnt
    refine ⟨layers, by simp [analyzeLoop], hlay, ?_, fun j _ => rfl⟩
    intro m hm
    simp [nonEmptyEntries] at hm
  | cons h rest ih =>
    intro t layers hlay hcnt
    by_cases he : h.EmptyLayer = true
    · rw [nonEmptyEntries_cons_true h rest he] at hcnt ⊢
      obtain ⟨out, h1, h2, h3, h4⟩ := ih t layers hlay hcnt
      refine ⟨out, ?_, h2, h3, h4⟩
      rw [← h1]
      simp only [analyzeLoop, he, if_true]
    · have he2 : h.EmptyLayer = false := by simpa using he
      rw [nonEmptyEntries_cons_false h rest he2] at hcnt ⊢
      have hcnt2 : (t + 1) + (nonEmptyEntries rest).length = trees.length := by
        simp only [List.length_cons] at hcnt
        omega
      have ht : t < trees.length := by omega
      obtain ⟨tr, htr⟩ := hsome t ht
      have hgd : trees.getD t none = some tr := by
        have hx := get?_eq_some_getD trees t none ht
        rw [htr] at hx
        exact (Option.some.inj hx).symm
      have htn : ((trees.length : Int) - 1 - (t : Int)).toNat =
          trees.length - 1 - t := by omega
      have hg1 : getChecked trees
          ((trees.length : Int) - 1 - ((trees.length : Int) - 1 - (t : Int))) =
            some (some tr) := by
        have hi : (trees.length : Int) - 1 - ((trees.length : Int) - 1 - (t : Int)) =
            (t : Int) := by ring
        rw [hi, getChecked, if_pos (by omega)]
        exact htr
      have hg2 : getChecked trees ((trees.length : Int) - 1 - (t : Int)) =
          some (trees.getD (trees.length - 1 - t) none) := by
        rw [getChecked, if_pos (by omega), htn]
        exact get?_eq_some_getD trees _ none (by omega)
      have hg3 : paths.get? t = some (paths.getD t []) :=
        get?_eq_some_getD paths t [] (by omega)
      have hg4 : setChecked layers ((trees.length : Int) - 1 - (t : Int))
          (some
            { tarPath := paths.getD t []
              history := { h with Size := tr.fileSize }
              index := (trees.length : Int) - 1 - (t : Int)
              tree := trees.getD (trees.length - 1 - t) none }) =
          some (layers.set (trees.length - 1 - t)
            (some
              { tarPath := paths.getD t []
                history := { h with Size := tr.fileSize }
                index := (trees.length : Int) - 1 - (t : Int)
                tree := trees.getD (trees.length - 1 - t) none })) := by
        rw [setChecked, if_pos ⟨by omega, by rw [htn]; omega⟩, htn]
      have harg : ((trees.length : Int) - 1 - (t : Int)) - 1 =
          (trees.length : Int) - 1 - ((t + 1 : Nat) : Int) := by
        push_cast
        ring
      have hred : analyzeLoop trees paths (h :: rest)
          ((trees.length : Int) - 1 - t) t layers =
            analyzeLoop trees paths rest
              ((trees.length : Int) - 1 - ((t + 1 : Nat) : Int)) (t + 1)
              (layers.set (trees.length - 1 - t)
                (some
                  { tarPath := paths.getD t []
                    history := { h with Size := tr.fileSize }
                    index := (trees.length : Int) - 1 - (t : Int)
                    tree := trees.getD (trees.length - 1 - t) none })) := by
        simp only [analyzeLoop]
        rw [if_neg he, hg1]
        simp only [Option.some_bind]
        rw [hg2]
        simp only [Option.some_bind]
        rw [hg3]
        simp only [Option.some_bind]
        rw [hg4]
        simp only [Option.some_bind]
        rw [harg]
      obtain ⟨out, hloop, hlen2, hslot, hframe⟩ :=
        ih (t + 1)
          (layers.set (trees.length - 1 - t)
            (some
              { tarPath := paths.getD t []
                history := { h with Size := tr.fileSize }
                index := (trees.length : Int) - 1 - (t : Int)
                tree := trees.getD (trees.length - 1 - t) none }))
          (by simp [hlay]) hcnt2
      refine ⟨out, by rw [hred]; exact hloop, hlen2, ?_, ?_⟩
      · intro m hm
        cases m with
        | zero =>
          have hj : ∀ m2, m2 < (nonEmptyEntries rest).length →
              trees.length - 1 - (t + 0) ≠ trees.length - 1 - (t + 1 + m2) := by
            intro m2 hm2
            omega
          rw [hframe _ hj]
          simp only [Nat.add_zero]
          rw [get?_set_self _ _ _ (by omega)]
          have hmk : mkLayerAt trees paths (h :: nonEmptyEntries rest) t 0 =
              { tarPath := paths.getD t []
                history := { h with Size := tr.fileSize }
                index := (trees.length : Int) - 1 - (t : Int)
                tree := trees.getD (trees.length - 1 - t) none } := by
            have hgd2 : trees[t]? = some (some tr) := by
              rw [← List.get?_eq_getElem?]
              exact htr
            simp [mkLayerAt, treeSizeAt, hgd2]
          rw [hmk]
        | succ m2 =>
          have hm2 : m2 < (nonEmptyEntries rest).length := by
            simp only [List.length_cons] at hm
            omega
          have hidx : t + (m2 + 1) = t + 1 + m2 := by omega
          rw [mkLayerAt_cons, hidx]
          exact hslot m2 hm2
      · intro j hj
        have hj2 : ∀ m2, m2 < (nonEmptyEntries rest).length →
            j ≠ trees.length - 1 - (t + 1 + m2) := by
          intro m2 hm2
          have := hj (m2 + 1) (by simp only [List.length_cons]; omega)
          have hidx : t + (m2 + 1) = t + 1 + m2 := by omega
          rw [hidx] at this
          exact this
        rw [hframe j hj2]
        exact get?_set_other _ _ _ _
          (fun hx => (hj 0 (by simp)) (by rw [← hx]; omega))

/-- A successful read determines the defaulted read. -/
lemma getD_eq_of_get? (l : List α) (i : Nat) (d a : α) (h : l.get? i = some a) :
    l.getD i d = a := by
  rw [List.getD_eq_getElem?_getD, ← List.get?_eq_getElem?, h]
  rfl

/-- A successful read is in range. -/
lemma lt_of_get?_eq_some (l : List α) (i : Nat) (a : α) (h : l.get? i = some a) :
    i < l.length := by
  by_contra hc
  rw [List.get?_eq_none.mpr (by omega)] at h
  cases h

/-- Every non-empty entry really carries content. -/
lemma nonEmptyEntries_flag (l : List dockerImageHistoryEntry)
    (e : dockerImageHistoryEntry) (he : e ∈ nonEmptyEntries l) :
    e.EmptyLayer = false := by
  have := List.of_mem_filter he
  simpa using this

/-- Claim C8: on a valid manifest/config pair — every manifest path has a
built tree and the non-empty history entry count matches the path count —
the analysis succeeds, produces exactly one layer per content-bearing entry
(none for empty-layer entries), and the layer assembled from the i-th
non-empty entry in chronological order sits at slot `(n-1) - i` with index
`(n-1) - i` and tar path `layerTarPaths[i]`. -/
theorem analyze_layer_indexing (manifest : dockerImageManifest)
    (config : dockerImageConfig) (layerMap : List (Str × FileTree))
    (htrees : ∀ p ∈ manifest.LayerTarPaths,
      (lookupTree layerMap p).isSome = true)
    (hcount : (nonEmptyEntries config.History).length =
      manifest.LayerTarPaths.length) :
    ∃ r, analyzeCore manifest config layerMap = some r ∧
      r.Layers.length = manifest.LayerTarPaths.length ∧
      (∀ l, l ∈ r.Layers → l.history.EmptyLayer = false) ∧
      (∀ i, i < manifest.LayerTarPaths.length →
        (r.Layers.getD (manifest.LayerTarPaths.length - 1 - i)
              defaultLayer).index =
            (manifest.LayerTarPaths.length : Int) - 1 - i ∧
          (r.Layers.getD (manifest.LayerTarPaths.length - 1 - i)
              defaultLayer).tarPath =
            manifest.LayerTarPaths.getD i [] ∧
          (r.Layers.getD (manifest.LayerTarPaths.length - 1 - i)
              defaultLayer).history.CreatedBy =
            ((nonEmptyEntries config.History).getD i defaultHistory).CreatedBy ∧
          (r.Layers.getD (manifest.LayerTarPaths.length - 1 - i)
              defaultLayer).history.ID =
            ((nonEmptyEntries config.History).getD i defaultHistory).ID) := by
  unfold analyzeCore
  generalize hT : manifest.LayerTarPaths.map (lookupTree layerMap) = trees
  have hTN : trees.length = manifest.LayerTarPaths.length := by
    rw [← hT]
    exact List.length_map _ _
  have hlen : manifest.LayerTarPaths.length = trees.length := hTN.symm
  have hsome : ∀ i, i < trees.length → ∃ tr, trees.get? i = some (some tr) := by
    intro i hi
    have hi2 : i < manifest.LayerTarPaths.length := by omega
    have hp : manifest.LayerTarPaths.get? i =
        some (manifest.LayerTarPaths.getD i []) :=
      get?_eq_some_getD _ _ _ hi2
    have hmem : manifest.LayerTarPaths.getD i [] ∈ manifest.LayerTarPaths :=
      List.get?_mem hp
    obtain ⟨tr, htr2⟩ := Option.isSome_iff_exists.mp (htrees _ hmem)
    refine ⟨tr, ?_⟩
    rw [← hT, List.get?_map, hp]
    simp only [Option.map_some']
    rw [htr2]
  obtain ⟨out, hloop, hool, hslot, _⟩ :=
    analyzeLoop_valid trees manifest.LayerTarPaths hlen hsome config.History 0
      (List.replicate trees.length none) (by simp) (by omega)
  have hzero : (trees.length : Int) - 1 - ((0 : Nat) : Int) =
      (trees.length : Int) - 1 := by simp
  rw [hzero] at hloop
  have hfull : ∀ j, j < out.length → ∃ a, out.get? j = some (some a) := by
    intro j hj
    rw [hool] at hj
    have hm : trees.length - 1 - j < (nonEmptyEntries config.History).length := by
      omega
    have hslotj := hslot (trees.length - 1 - j) hm
    have hjj : trees.length - 1 - (0 + (trees.length - 1 - j)) = j := by omega
    rw [hjj] at hslotj
    exact ⟨_, hslotj⟩
  obtain ⟨layersF, hall⟩ := allSome_of_all_some out hfull
  obtain ⟨ts, hts2⟩ := allSome_of_all_some trees (fun j hj => hsome j hj)
  have heff : Efficiency trees =
      some (specEfficiencyScore (specWastedBytes ts) (specUserSizeBytes ts),
        specInefficiencies ts) := by
    unfold Efficiency
    rw [hts2]
  have hLF : ∀ i, i < manifest.LayerTarPaths.length →
      layersF.get? (manifest.LayerTarPaths.length - 1 - i) =
        some (mkLayerAt trees manifest.LayerTarPaths
          (nonEmptyEntries config.History) 0 i) := by
    intro i hi
    have hm : i < (nonEmptyEntries config.History).length := by omega
    have hslotj := hslot i hm
    have hg := allSome_get? hall (trees.length - 1 - (0 + i))
    rw [hslotj] at hg
    have hidx : trees.length - 1 - (0 + i) =
        manifest.LayerTarPaths.length - 1 - i := by omega
    cases hy : layersF.get? (manifest.LayerTarPaths.length - 1 - i) with
    | none => rw [hidx, hy] at hg; cases hg
    | some y =>
      rw [hidx, hy] at hg
      obtain rfl : mkLayerAt trees manifest.LayerTarPaths
          (nonEmptyEntries config.History) 0 i = y := by
        have := Option.some.inj hg
        exact Option.some.inj this
      rfl
  refine ⟨mkAnalysisResult trees
      (specEfficiencyScore (specWastedBytes ts) (specUserSizeBytes ts),
        specInefficiencies ts) layersF, ?_, ?_, ?_, ?_⟩
  · rw [hloop]
    simp only [Option.some_bind]
    rw [heff]
    simp only [Option.some_bind]
    rw [hall]
    rfl
  · show layersF.length = manifest.LayerTarPaths.length
    rw [allSome_length hall, hool, hTN]
  · show ∀ l, l ∈ layersF → l.history.EmptyLayer = false
    intro l hl
    obtain ⟨j, hj⟩ := List.get?_of_mem hl
    have hjlt : j < layersF.length := lt_of_get?_eq_some _ _ _ hj
    have hjN : j < manifest.LayerTarPaths.length := by
      rw [allSome_length hall, hool] at hjlt
      omega
    have hij : manifest.LayerTarPaths.length - 1 - 
        (manifest.LayerTarPaths.length - 1 - j) = j := by omega
    have hlf := hLF (manifest.LayerTarPaths.length - 1 - j) (by omega)
    rw [hij, hj] at hlf
    obtain rfl := Option.some.inj hlf
    have hmlt : manifest.LayerTarPaths.length - 1 - j <
        (nonEmptyEntries config.History).length := by omega
    have hmem : (nonEmptyEntries config.History).getD
        (manifest.LayerTarPaths.length - 1 - j) defaultHistory ∈
          nonEmptyEntries config.History :=
      List.get?_mem (get?_eq_some_getD _ _ _ hmlt)
    have := nonEmptyEntries_flag _ _ hmem
    simpa [mkLayerAt] using this
  · intro i hi
    have hLF2 : layersF[manifest.LayerTarPaths.length - 1 - i]? =
        some (mkLayerAt trees manifest.LayerTarPaths
          (nonEmptyEntries config.History) 0 i) := by
      rw [← List.get?_eq_getElem?]
      exact hLF i hi
    have hgd : (mkAnalysisResult trees
        (specEfficiencyScore (specWastedBytes ts) (specUserSizeBytes ts),
          specInefficiencies ts) layersF).Layers.getD
          (manifest.LayerTarPaths.length - 1 - i) defaultLayer =
        mkLayerAt trees manifest.LayerTarPaths
          (nonEmptyEntries config.History) 0 i := by
      show layersF.getD (manifest.LayerTarPaths.length - 1 - i) defaultLayer = _
      rw [List.getD_eq_getElem?_getD, hLF2]
      rfl
    rw [hgd]
    refine ⟨?_, ?_, ?_, ?_⟩
    · show ((trees.length : Int) - 1 - ((0 + i : Nat) : Int)) = _
      push_cast
      omega
    · show manifest.LayerTarPaths.getD (0 + i) [] =
        manifest.LayerTarPaths.getD i []
      rw [Nat.zero_add]
    · rfl
    · rfl

/-- Witness for the assembler theorem on a concrete one-layer image. -/
theorem analyze_layer_indexing_witness :
    (∀ p ∈ exManifest8.LayerTarPaths,
        (lookupTree exLayerMap8 p).isSome = true) ∧
      ((nonEmptyEntries exConfig8.History).length =
        exManifest8.LayerTarPaths.length) ∧
      (∃ r, analyzeCore exManifest8 exConfig8 exLayerMap8 = some r ∧
        r.Layers.length = exManifest8.LayerTarPaths.length ∧
        (∀ l, l ∈ r.Layers → l.history.EmptyLayer = false) ∧
        (∀ i, i < exManifest8.LayerTarPaths.length →
          (r.Layers.getD (exManifest8.LayerTarPaths.length - 1 - i)
                defaultLayer).index =
              (exManifest8.LayerTarPaths.length : Int) - 1 - i ∧
            (r.Layers.getD (exManifest8.LayerTarPaths.length - 1 - i)
                defaultLayer).tarPath =
              exManifest8.LayerTarPaths.getD i [] ∧
            (r.Layers.getD (exManifest8.LayerTarPaths.length - 1 - i)
                defaultLayer).history.CreatedBy =
              ((nonEmptyEntries exConfig8.History).getD i
                defaultHistory).CreatedBy ∧
            (r.Layers.getD (exManifest8.LayerTarPaths.length - 1 - i)
                defaultLayer).history.ID =
              ((nonEmptyEntries exConfig8.History).getD i defaultHistory).ID)) :=
  ⟨by decide, by decide,
   analyze_layer_indexing exManifest8 exConfig8 exLayerMap8 (by decide) (by decide)⟩
